import Mathlib

/-!
Verification of the theme-resolution and CSS-generation core of the
tree-painter library (src/lib/src/theme.rs, src/lib/src/renderer.rs,
src/lib/src/error.rs, src/lib/src/lib.rs).

The Rust code is shallowly embedded: TOML values become the inductive
`Value`, `toml::value::Table` becomes an association list with first-match
lookup (the TOML parser guarantees unique keys), `Result` becomes `Except`,
and `HashMap<usize, Style>` becomes a list of index/style pairs built in
scope-table order, with the HashMap's unspecified iteration order modelled
as an explicit permutation parameter where it matters (`cssOut`).
-/

set_option autoImplicit false

namespace TreePainter

/-- A parsed TOML value (the `toml::Value` type of the `toml` crate).
Only the variants the theme code inspects are kept distinct; `Integer`,
`Float`, `Boolean` and `Datetime` are collapsed into `other` because the
code never matches on them. -/
inductive Value where
  | str : String → Value
  | array : List Value → Value
  | table : List (String × Value) → Value
  | other : Value

/-- `toml::value::Table`: a map from strings to values, embedded as an
association list with unique keys. -/
abbrev Table := List (String × Value)

/-- `Table::get`: first-match key lookup. -/
def Table.get (t : Table) (key : String) : Option Value :=
  match t with
  | [] => none
  | (k, v) :: rest => if k = key then some v else Table.get rest key

/-- `toml::Value::get` with a string index: looks up in a table, returns
`none` on every other variant. -/
def Value.get (v : Value) (key : String) : Option Value :=
  match v with
  | .table t => Table.get t key
  | _ => none

/-- Whether the value is a `Value::Table`. -/
def Value.isTable : Value → Bool
  | .table _ => true
  | _ => false

/-- Whether an optional value is `some (Value::String _)`. -/
def isStrOpt : Option Value → Bool
  | some (.str _) => true
  | _ => false

/-- `Style` from theme.rs: a color plus bold/italic flags. -/
@[ext]
structure Style where
  color : String
  is_bold : Bool
  is_italic : Bool
deriving DecidableEq

/-- `impl From<&String> for Style`: a style with the given color and both
modifier flags false. -/
def Style.fromColor (color : String) : Style :=
  { color := color, is_bold := false, is_italic := false }

/-- The opaque payload of a `toml::de::Error` (only its presence matters). -/
abbrev TomlError := String

/-- The `Error` enum from error.rs. The `Highlighting` variant wraps the
external highlighter's error message. -/
inductive Error where
  | toml : TomlError → Error
  | invalidTheme : Error
  | invalidColorReference : String → Error
  | highlighting : String → Error
deriving DecidableEq

/-- Whether an error is the `Error::Toml` (malformed document) kind. -/
def Error.isToml : Error → Bool
  | .toml _ => true
  | _ => false

/-- `HIGHLIGHT_NAMES` from renderer.rs: the fixed ordered scope table. -/
def HIGHLIGHT_NAMES : List String :=
  ["attribute", "comment", "constant", "constant.builtin", "constructor",
   "escape", "function", "function.builtin", "function.method",
   "function.macro", "include", "keyword", "label", "namespace", "number",
   "operator", "property", "punctuation", "punctuation.bracket",
   "punctuation.delimiter", "repeat", "string", "type", "type.builtin",
   "variable", "variable.builtin", "variable.parameter"]

/-- `HIGHLIGHT_NAMES[index]`; indices coming from a resolved theme are
always in range. -/
def highlightName (i : Nat) : String := HIGHLIGHT_NAMES.getD i ""

/-- One iteration of the modifier loop in `fg_color` (theme.rs lines
69-77): a `"italic"` string sets the italic flag, a `"bold"` string sets
the bold flag, everything else is ignored. -/
def modStep (s : Style) (m : Value) : Style :=
  match m with
  | .str name =>
    if name = "italic" then { s with is_italic := true }
    else if name = "bold" then { s with is_bold := true }
    else s
  | _ => s

/-- The whole modifier loop of `fg_color`: runs only when the `modifiers`
entry is present and is an array. -/
def applyModifiers (s : Style) (mods : Option Value) : Style :=
  match mods with
  | some (.array l) => l.foldl modStep s
  | _ => s

/-- The `referenced_color` closure from theme.rs (lines 47-55): field
`name` of `table` must be a string naming a palette entry that is a
string; otherwise the error carries the field name `name`. -/
def referenced_color (palette : Value) (t : Table) (name : String) :
    Except Error Style :=
  match Table.get t name with
  | some (.str reference) =>
    match Value.get palette reference with
    | some (.str color) => .ok (Style.fromColor color)
    | _ => .error (.invalidColorReference name)
  | _ => .error (.invalidColorReference name)

/-- The `fg_color` closure from theme.rs (lines 57-87). A bare string
reference that does not resolve falls through to `ok none`; a table form
resolves its `fg` field via `referenced_color` (propagating its error)
and then applies the modifier list. -/
def fg_color (root : Table) (palette : Value) (name : String) :
    Except Error (Option Style) :=
  match Table.get root name with
  | some (.str reference) =>
    match Value.get palette reference with
    | some (.str color) => .ok (some (Style.fromColor color))
    | _ => .ok none
  | some (.table t) =>
    match referenced_color palette t "fg" with
    | .error e => .error e
    | .ok style => .ok (some (applyModifiers style (Table.get t "modifiers")))
  | _ => .ok none

/-- The scope loop of `Theme::from_helix` (theme.rs lines 89-95):
for each scope name, in scope-table order starting at index `i`, insert
the resolved style when `fg_color` yields one; the first error aborts. -/
def buildStyleMap (root : Table) (palette : Value) :
    List String → Nat → Except Error (List (Nat × Style))
  | [], _ => .ok []
  | name :: rest, i =>
    match fg_color root palette name with
    | .error e => .error e
    | .ok head =>
      match buildStyleMap root palette rest (i + 1) with
      | .error e => .error e
      | .ok tail =>
        match head with
        | some style => .ok ((i, style) :: tail)
        | none => .ok tail

/-- The background resolution of `Theme::from_helix` (theme.rs lines
97-100): a present `ui.background` table resolves its `bg` field
(propagating the error), anything else falls back to black `#000`. -/
def resolveBackground (palette : Value) (root : Table) : Except Error Style :=
  match Table.get root "ui.background" with
  | some (.table t) => referenced_color palette t "bg"
  | _ => .ok (Style.fromColor "#000")

/-- A resolved theme (theme.rs lines 25-29). `style_map` keeps the pairs
in scope-table order; the HashMap's iteration order appears separately
where the renderer consumes it. -/
structure Theme where
  style_map : List (Nat × Style)
  foreground : Style
  background : Style
deriving DecidableEq

/-- `Theme::from_helix` after the TOML parse succeeded with a top-level
table (theme.rs lines 45-108): find the palette, run the scope loop, then
resolve background and foreground with their fallbacks. -/
def fromHelixTable (root : Table) : Except Error Theme :=
  match Table.get root "palette" with
  | none => .error .invalidTheme
  | some palette =>
    match buildStyleMap root palette HIGHLIGHT_NAMES 0 with
    | .error e => .error e
    | .ok style_map =>
      match resolveBackground palette root with
      | .error e => .error e
      | .ok background =>
        match fg_color root palette "ui.text" with
        | .error e => .error e
        | .ok o =>
          .ok { style_map := style_map
              , foreground := o.getD (Style.fromColor "#fff")
              , background := background }

/-- `Theme::from_helix` (theme.rs lines 39-109). The TOML parse performed
by the external `toml` crate is taken as input: a parse failure is
converted into `Error::Toml` by the `?` operator (error.rs `#[from]`), a
non-table top level is rejected with `Error::InvalidTheme`. -/
def from_helix (parsed : Except TomlError Value) : Except Error Theme :=
  match parsed with
  | .error e => .error (.toml e)
  | .ok (.table root) => fromHelixTable root
  | .ok _ => .error .invalidTheme

/-- The `:root` rule written first by `Renderer::css` (renderer.rs lines
69-73), newline included (`writeln!`). -/
def cssRoot (t : Theme) : String :=
  ":root \x7b --tsc-main-fg-color: " ++ t.foreground.color ++
    "; --tsc-main-bg-color: " ++ t.background.color ++ "; \x7d\n"

/-- The head of one class rule (renderer.rs lines 76-80): class prefix,
scope name with dots preserved, and the color declaration. -/
def cssRuleHead (i : Nat) (color : String) : String :=
  ".tsc-" ++ highlightName i ++ " \x7b color: " ++ color ++ ";"

/-- One whole class rule as emitted by the loop body of `Renderer::css`
(renderer.rs lines 75-91). -/
def cssRule (i : Nat) (s : Style) : String :=
  cssRuleHead i s.color ++
    (if s.is_bold then "font-weight: bold;" else "") ++
    (if s.is_italic then "font-style: italic;" else "") ++ "\x7d\n"

/-- The fixed utility rule appended last (renderer.rs line 93). -/
def cssLineRule : String :=
  ".tsc-line \x7b word-wrap: normal; white-space: pre; \x7d\n"

/-- `Renderer::css` (renderer.rs lines 66-95). The Rust loop iterates the
`HashMap<usize, Style>` in the map's unspecified iteration order; that
order is the explicit parameter `ord`, a permutation of the map's
entries. -/
def cssOut (t : Theme) (ord : List (Nat × Style)) : String :=
  cssRoot t ++ String.join (ord.map fun p => cssRule p.1 p.2) ++ cssLineRule

/-- The `Renderer` state that `css` reads (renderer.rs lines 37-42): the
theme plus the fixed iteration order of its `style_map` HashMap for this
instance. (`css_classes` and `configs` are not consumed by `css`.) -/
structure Renderer where
  theme : Theme
  iterOrder : List (Nat × Style)

/-- `Renderer::css` as a state-passing call: it takes `&self`, so the
observable state is returned unchanged. -/
def Renderer.cssCall (r : Renderer) : String × Renderer :=
  (cssOut r.theme r.iterOrder, r)

/-- The `Lang` enum from lib.rs with every grammar feature enabled (the
crate's default feature set). -/
inductive Lang where
  | C | Cpp | CSharp | Css | Docker | Go | Haskell | Java | Js | Json
  | Kotlin | Latex | Lua | Markdown | Nix | Ocaml | Python | Rust | Ts | Zig
deriving DecidableEq

/-- `Lang::from_extension` (lib.rs lines 181-241). Note the `"java"` arm
returns `Lang::Js` in the source. -/
def Lang.from_extension (e : String) : Option Lang :=
  match e with
  | "c" => some .C
  | "cs" => some .CSharp
  | "cpp" => some .Cpp
  | "cc" => some .Cpp
  | "cxx" => some .Cpp
  | "docker" => some .Docker
  | "go" => some .Go
  | "hs" => some .Haskell
  | "lhs" => some .Haskell
  | "java" => some .Js
  | "js" => some .Js
  | "json" => some .Json
  | "kt" => some .Kotlin
  | "tex" => some .Latex
  | "lua" => some .Lua
  | "md" => some .Markdown
  | "nix" => some .Nix
  | "ml" => some .Ocaml
  | "py" => some .Python
  | "rs" => some .Rust
  | "ts" => some .Ts
  | "zig" => some .Zig
  | _ => none

/-! ## Concrete theme documents used as test inputs -/

/-- A parsed theme with an empty palette and a bare-reference scope entry
naming an absent palette color. -/
def docBareMissing : Table := [("palette", .table []), ("keyword", .str "red")]

/-- A parsed theme with an empty palette and a table-form scope entry
whose fg names an absent palette color. -/
def docTableMissing : Table :=
  [("palette", .table []), ("keyword", .table [("fg", .str "red")])]

/-- A parsed theme resolving the first two scopes of the scope table. -/
def docTwoScopes : Table :=
  [("palette", .table [("red", .str "#f00"), ("blue", .str "#00f")]),
   ("attribute", .str "red"), ("comment", .str "blue")]

/-- The theme `docTwoScopes` resolves to. -/
def themeTwoScopes : Theme :=
  { style_map := [(0, Style.fromColor "#f00"), (1, Style.fromColor "#00f")]
  , foreground := Style.fromColor "#fff"
  , background := Style.fromColor "#000" }

/-- The reversed HashMap iteration order over `themeTwoScopes`. -/
def ordTwoScopesRev : List (Nat × Style) :=
  [(1, Style.fromColor "#00f"), (0, Style.fromColor "#f00")]

/-- A parsed theme whose `ui.background` table has no `bg` field. -/
def docBgMissing : Table :=
  [("palette", .table []), ("ui.background", .table [])]

/-- A parsed theme whose `ui.text` is a table whose fg names an absent
palette color. -/
def docUiTextTableMissing : Table :=
  [("palette", .table []), ("ui.text", .table [("fg", .str "red")])]

/-- A parsed theme whose `ui.text` is a bare reference to an absent
palette color. -/
def docUiTextBareMissing : Table :=
  [("palette", .table [("x", .str "#123")]), ("ui.text", .str "red")]

/-- A parsed theme with only a palette: `ui.text` and `ui.background`
are absent. -/
def docMinimal : Table := [("palette", .table [("red", .str "#f00")])]

/-- The modifier list `["bold", "italic", "strikethrough"]`. -/
def modsBoldItalicStrike : List Value :=
  [.str "bold", .str "italic", .str "strikethrough"]

/-- The table form `\x7b fg = "red", modifiers = ["bold", "italic",
"strikethrough"] \x7d`. -/
def tblBoldItalic : Table :=
  [("fg", .str "red"), ("modifiers", .array modsBoldItalicStrike)]

/-- A palette defining `red = "#ff0000"`. -/
def palRed : Value := .table [("red", .str "#ff0000")]

/-- A parsed theme whose `keyword` entry is the table form with bold and
italic modifiers. -/
def docKeywordBoldItalic : Table :=
  [("palette", palRed), ("keyword", .table tblBoldItalic)]

/-- A parsed theme resolving `ui.background` from the palette, with a
modifiers list inside the `ui.background` table. -/
def docBgWithModifiers : Table :=
  [("palette", .table [("red", .str "#f00")]),
   ("ui.background", .table [("bg", .str "red"), ("modifiers", .array [.str "bold"])])]

/-! ## Helper lemmas -/

theorem modStep_color (s : Style) (m : Value) : (modStep s m).color = s.color := by
  unfold modStep
  split
  · split
    · rfl
    · split <;> rfl
  · rfl

theorem modStep_bold_mono {s : Style} (m : Value) (h : s.is_bold = true) :
    (modStep s m).is_bold = true := by
  unfold modStep
  split
  · split
    · exact h
    · split
      · rfl
      · exact h
  · exact h

theorem modStep_italic_mono {s : Style} (m : Value) (h : s.is_italic = true) :
    (modStep s m).is_italic = true := by
  unfold modStep
  split
  · split
    · rfl
    · split
      · exact h
      · exact h
  · exact h

theorem foldl_modStep_color (l : List Value) (s : Style) :
    (l.foldl modStep s).color = s.color := by
  induction l generalizing s with
  | nil => rfl
  | cons m rest ih => rw [List.foldl_cons, ih, modStep_color]

theorem foldl_modStep_bold_mono (l : List Value) {s : Style} (h : s.is_bold = true) :
    (l.foldl modStep s).is_bold = true := by
  induction l generalizing s with
  | nil => exact h
  | cons m rest ih => exact ih (modStep_bold_mono m h)

theorem foldl_modStep_italic_mono (l : List Value) {s : Style} (h : s.is_italic = true) :
    (l.foldl modStep s).is_italic = true := by
  induction l generalizing s with
  | nil => exact h
  | cons m rest ih => exact ih (modStep_italic_mono m h)

theorem foldl_modStep_bold_of_mem {l : List Value} (s : Style)
    (h : Value.str "bold" ∈ l) : (l.foldl modStep s).is_bold = true := by
  induction l generalizing s with
  | nil => cases h
  | cons m rest ih =>
    rcases List.mem_cons.mp h with heq | hmem
    · subst heq
      by_cases hb : s.is_bold = true
      · exact foldl_modStep_bold_mono rest (modStep_bold_mono _ hb)
      · refine foldl_modStep_bold_mono rest ?_
        show (modStep s (.str "bold")).is_bold = true
        unfold modStep
        simp
    · exact ih _ hmem

theorem foldl_modStep_italic_of_mem {l : List Value} (s : Style)
    (h : Value.str "italic" ∈ l) : (l.foldl modStep s).is_italic = true := by
  induction l generalizing s with
  | nil => cases h
  | cons m rest ih =>
    rcases List.mem_cons.mp h with heq | hmem
    · subst heq
      refine foldl_modStep_italic_mono rest ?_
      show (modStep s (.str "italic")).is_italic = true
      unfold modStep
      simp
    · exact ih _ hmem

theorem referenced_color_flags {p : Value} {t : Table} {name : String} {s : Style}
    (h : referenced_color p t name = .ok s) :
    s.is_bold = false ∧ s.is_italic = false := by
  unfold referenced_color at h
  split at h
  · split at h
    · cases h
      exact ⟨rfl, rfl⟩
    · exact Except.noConfusion h
  · exact Except.noConfusion h

theorem resolveBackground_flags {p : Value} {root : Table} {s : Style}
    (h : resolveBackground p root = .ok s) :
    s.is_bold = false ∧ s.is_italic = false := by
  unfold resolveBackground at h
  split at h
  · exact referenced_color_flags h
  · cases h
    exact ⟨rfl, rfl⟩

/-- Inverting a successful run of the body of `Theme::from_helix`. -/
theorem fromHelixTable_ok_inv {root : Table} {t : Theme}
    (h : fromHelixTable root = .ok t) :
    ∃ p o, Table.get root "palette" = some p ∧
      buildStyleMap root p HIGHLIGHT_NAMES 0 = .ok t.style_map ∧
      resolveBackground p root = .ok t.background ∧
      fg_color root p "ui.text" = .ok o ∧
      t.foreground = o.getD (Style.fromColor "#fff") := by
  unfold fromHelixTable at h
  split at h
  · exact Except.noConfusion h
  next p hp =>
    split at h
    · exact Except.noConfusion h
    next m hm =>
      split at h
      · exact Except.noConfusion h
      next bg hbg =>
        split at h
        · exact Except.noConfusion h
        next o ho =>
          injection h with h
          subst h
          exact ⟨p, o, hp, hm, hbg, ho, rfl⟩

theorem fg_color_bare_unresolved {root : Table} {p : Value} {name r : String}
    (h1 : Table.get root name = some (.str r))
    (h2 : isStrOpt (Value.get p r) = false) :
    fg_color root p name = .ok none := by
  unfold fg_color
  rw [h1]
  split
  next c hc =>
    injection hc with hc
    injection hc with hc
    subst hc
    cases hpc : Value.get p r with
    | none => rfl
    | some v =>
      cases v with
      | str c2 => rw [hpc] at h2; simp [isStrOpt] at h2
      | array l => rfl
      | table u => rfl
      | other => rfl
  next u hu =>
    injection hu with hu
    exact Value.noConfusion hu
  next hno1 hno2 =>
    exact absurd rfl (hno1 r)

theorem referenced_color_unresolved {p : Value} {u : Table} {field r : String}
    (h2 : Table.get u field = some (.str r))
    (h3 : isStrOpt (Value.get p r) = false) :
    referenced_color p u field = .error (.invalidColorReference field) := by
  unfold referenced_color
  rw [h2]
  split
  next c hc =>
    injection hc with hc
    injection hc with hc
    subst hc
    cases hpc : Value.get p r with
    | none => rfl
    | some v =>
      cases v with
      | str c2 => rw [hpc] at h3; simp [isStrOpt] at h3
      | array l => rfl
      | table u2 => rfl
      | other => rfl
  next hno =>
    exact absurd rfl (hno r)

theorem fg_color_table_unresolved {root : Table} {p : Value} {name : String}
    {u : Table} {r : String}
    (h1 : Table.get root name = some (.table u))
    (h2 : Table.get u "fg" = some (.str r))
    (h3 : isStrOpt (Value.get p r) = false) :
    fg_color root p name = .error (.invalidColorReference "fg") := by
  unfold fg_color
  rw [h1]
  split
  next c hc =>
    injection hc with hc
    exact Value.noConfusion hc
  next t ht =>
    injection ht with ht
    injection ht with ht
    subst ht
    rw [referenced_color_unresolved h2 h3]
  next hno1 hno2 =>
    exact absurd rfl (hno2 u)

/-- Every index produced by the scope loop is at least the starting index. -/
theorem buildStyleMap_lb {root : Table} {p : Value} :
    ∀ (names : List String) (i : Nat) (l : List (Nat × Style)),
      buildStyleMap root p names i = .ok l → ∀ q ∈ l, i ≤ q.1 := by
  intro names
  induction names with
  | nil =>
    intro i l h q hq
    unfold buildStyleMap at h
    injection h with h
    subst h
    cases hq
  | cons name rest ih =>
    intro i l h q hq
    unfold buildStyleMap at h
    split at h
    · exact Except.noConfusion h
    next head hhead =>
      split at h
      · exact Except.noConfusion h
      next tail htail =>
        split at h
        next style hstyle =>
          injection h with h
          subst h
          rcases List.mem_cons.mp hq with heq | hmem
          · subst heq; exact Nat.le_refl i
          · exact Nat.le_of_succ_le (ih (i + 1) tail htail q hmem)
        next =>
          injection h with h
          subst h
          exact Nat.le_of_succ_le (ih (i + 1) tail htail q hq)

/-- The scope loop produces its index/style pairs with strictly
increasing indices, i.e. in scope-table order. -/
theorem buildStyleMap_sorted {root : Table} {p : Value} :
    ∀ (names : List String) (i : Nat) (l : List (Nat × Style)),
      buildStyleMap root p names i = .ok l →
      l.Pairwise (fun a b => a.1 < b.1) := by
  intro names
  induction names with
  | nil =>
    intro i l h
    unfold buildStyleMap at h
    injection h with h
    subst h
    exact List.Pairwise.nil
  | cons name rest ih =>
    intro i l h
    unfold buildStyleMap at h
    split at h
    · exact Except.noConfusion h
    next head hhead =>
      split at h
      · exact Except.noConfusion h
      next tail htail =>
        split at h
        next style hstyle =>
          injection h with h
          subst h
          refine List.Pairwise.cons ?_ (ih (i + 1) tail htail)
          intro q hq
          exact Nat.lt_of_succ_le (buildStyleMap_lb rest (i + 1) tail htail q hq)
        next =>
          injection h with h
          subst h
          exact ih (i + 1) tail htail

/-- In a list of pairs with strictly increasing keys, a present key is
counted exactly once. -/
theorem countP_key_eq_one {l : List (Nat × Style)} {i : Nat} {s : Style}
    (hs : l.Pairwise (fun a b => a.1 < b.1)) (hm : (i, s) ∈ l) :
    l.countP (fun q => q.1 == i) = 1 := by
  induction l with
  | nil => cases hm
  | cons hd tl ih =>
    rcases List.pairwise_cons.mp hs with ⟨hlt, htl⟩
    rcases List.mem_cons.mp hm with heq | hmem
    · subst heq
      have hz : tl.countP (fun q => q.1 == i) = 0 := by
        refine List.countP_eq_zero.mpr ?_
        intro q hq
        have h2 : i < q.1 := hlt q hq
        simp only [beq_iff_eq]
        omega
      rw [List.countP_cons, hz]
      simp
    · have hlt2 : hd.1 < i := hlt (i, s) hmem
      have hfalse : (hd.1 == i) = false := by
        simp only [beq_eq_false_iff_ne]
        omega
      rw [List.countP_cons]
      simp [hfalse, ih htl hmem]

theorem fg_color_absent {root : Table} {p : Value} {name : String}
    (h : Table.get root name = none) : fg_color root p name = .ok none := by
  unfold fg_color
  rw [h]

theorem referenced_color_field_absent {p : Value} {u : Table} {field : String}
    (h : Table.get u field = none) :
    referenced_color p u field = .error (.invalidColorReference field) := by
  unfold referenced_color
  rw [h]

/-! ## Claims -/

/-- Claim C1, amended: a per-scope entry referencing a palette name absent
from the palette is not an error in bare-reference form — `fg_color`
yields no style, so the scope is silently skipped — while in table form
resolution fails with `InvalidColorReference` carrying the literal field
name "fg", not the offending scope name. -/
theorem c1_unresolved_reference_behavior
    (root1 : Table) (p1 : Value) (name1 r1 : String)
    (root2 : Table) (p2 : Value) (name2 : String) (u : Table) (r2 : String)
    (h1 : Table.get root1 name1 = some (.str r1))
    (h2 : isStrOpt (Value.get p1 r1) = false)
    (h3 : Table.get root2 name2 = some (.table u))
    (h4 : Table.get u "fg" = some (.str r2))
    (h5 : isStrOpt (Value.get p2 r2) = false) :
    fg_color root1 p1 name1 = .ok none ∧
    fg_color root2 p2 name2 = .error (.invalidColorReference "fg") :=
  ⟨fg_color_bare_unresolved h1 h2, fg_color_table_unresolved h3 h4 h5⟩

/-- Claim C1 witness: concrete instantiation with scope `keyword` and an
empty palette, in both entry forms. -/
theorem c1_unresolved_reference_behavior_witness :
    Table.get docBareMissing "keyword" = some (.str "red") ∧
    isStrOpt (Value.get (.table []) "red") = false ∧
    Table.get docTableMissing "keyword" = some (.table [("fg", .str "red")]) ∧
    (fg_color docBareMissing (.table []) "keyword" = .ok none ∧
     fg_color docTableMissing (.table []) "keyword" =
       .error (.invalidColorReference "fg")) :=
  ⟨rfl, rfl, rfl,
   c1_unresolved_reference_behavior docBareMissing (.table []) "keyword" "red"
     docTableMissing (.table []) "keyword" [("fg", .str "red")] "red"
     rfl rfl rfl rfl rfl⟩

/-- Claim C1 counterexample: with an empty palette and a bare `keyword =
"red"` entry, `from_helix` succeeds (it does not fail at all), and with
the table form it fails carrying the field name "fg", which differs from
the scope name "keyword". This refutes the claim as stated for both
forms. -/
theorem c1_counterexample :
    fromHelixTable docBareMissing =
      .ok { style_map := [], foreground := Style.fromColor "#fff",
            background := Style.fromColor "#000" } ∧
    fromHelixTable docTableMissing = .error (.invalidColorReference "fg") ∧
    Error.invalidColorReference "fg" ≠ Error.invalidColorReference "keyword" :=
  ⟨rfl, rfl, by decide⟩

/-- Claim C2, amended: for a successfully resolved theme, `css` emits the
root rule first, then one class rule per entry of the iteration order of
the style map — so each populated scope index gets exactly one class rule
— then the fixed line rule; but the rules appear in the HashMap's
iteration order, which is any permutation of the style map, not
necessarily Scope Table order. -/
theorem c2_one_rule_per_index
    (root : Table) (t : Theme) (ord : List (Nat × Style)) (i : Nat) (s : Style)
    (h1 : fromHelixTable root = .ok t)
    (h2 : List.Perm ord t.style_map)
    (h3 : (i, s) ∈ t.style_map) :
    cssOut t ord =
      cssRoot t ++ String.join (ord.map fun q => cssRule q.1 q.2) ++ cssLineRule
    ∧ ord.countP (fun q => q.1 == i) = 1 := by
  refine ⟨rfl, ?_⟩
  obtain ⟨p, o, hp, hm, hbg, ho, hfg⟩ := fromHelixTable_ok_inv h1
  rw [h2.countP_eq]
  exact countP_key_eq_one (buildStyleMap_sorted HIGHLIGHT_NAMES 0 t.style_map hm) h3

/-- Claim C2 witness: the two-scope theme, consumed in reversed iteration
order; scope index 0 gets exactly one rule. -/
theorem c2_one_rule_per_index_witness :
    fromHelixTable docTwoScopes = .ok themeTwoScopes ∧
    List.Perm ordTwoScopesRev themeTwoScopes.style_map ∧
    (0, Style.fromColor "#f00") ∈ themeTwoScopes.style_map ∧
    (cssOut themeTwoScopes ordTwoScopesRev =
      cssRoot themeTwoScopes ++
        String.join (ordTwoScopesRev.map fun q => cssRule q.1 q.2) ++ cssLineRule
     ∧ ordTwoScopesRev.countP (fun q => q.1 == 0) = 1) :=
  ⟨rfl, List.Perm.swap _ _ _, by decide,
   c2_one_rule_per_index docTwoScopes themeTwoScopes ordTwoScopesRev 0
     (Style.fromColor "#f00") rfl (List.Perm.swap _ _ _) (by decide)⟩

/-- Claim C2 counterexample: the reversed iteration order is a valid
HashMap iteration order (a permutation of the style map), yet the CSS it
produces differs from the CSS whose rules are in Scope Table order (the
style map itself is sorted by scope index), so the emitted rules are not
always in Scope Table order. -/
theorem c2_counterexample :
    fromHelixTable docTwoScopes = .ok themeTwoScopes ∧
    List.Perm ordTwoScopesRev themeTwoScopes.style_map ∧
    cssOut themeTwoScopes ordTwoScopesRev ≠
      cssOut themeTwoScopes themeTwoScopes.style_map :=
  ⟨rfl, List.Perm.swap _ _ _, by decide⟩

/-- Claim C3, amended: a theme document that parses as a table but has no
`palette` key is rejected with the invalid-theme-shape kind
(`Error::InvalidTheme`), not the malformed-document kind. -/
theorem c3_missing_palette_invalid_theme
    (root : Table) (h : Table.get root "palette" = none) :
    fromHelixTable root = .error .invalidTheme := by
  unfold fromHelixTable
  rw [h]

/-- Claim C3 witness: the empty document. -/
theorem c3_missing_palette_invalid_theme_witness :
    Table.get ([] : Table) "palette" = none ∧
    fromHelixTable [] = .error .invalidTheme :=
  ⟨rfl, c3_missing_palette_invalid_theme [] rfl⟩

/-- Claim C3 counterexample: on the empty table the error is
`InvalidTheme`, which is not the malformed-document (`Toml`) kind. -/
theorem c3_counterexample :
    fromHelixTable [] = .error .invalidTheme ∧
    Error.isToml .invalidTheme = false :=
  ⟨rfl, rfl⟩

/-- Claim C4, amended: when the `ui.background` entry is absent the theme
resolves with the built-in black fallback `#000`; but when the entry is
present as a table whose `bg` field is absent, `from_helix` fails with
`InvalidColorReference("bg")` instead of falling back. -/
theorem c4_background_fallback_or_bg_error
    (root1 : Table) (t1 : Theme) (root2 : Table) (p2 : Value)
    (m2 : List (Nat × Style)) (bt : Table)
    (h1 : fromHelixTable root1 = .ok t1)
    (h2 : Table.get root1 "ui.background" = none)
    (h3 : Table.get root2 "palette" = some p2)
    (h4 : buildStyleMap root2 p2 HIGHLIGHT_NAMES 0 = .ok m2)
    (h5 : Table.get root2 "ui.background" = some (.table bt))
    (h6 : Table.get bt "bg" = none) :
    t1.background = Style.fromColor "#000" ∧
    fromHelixTable root2 = .error (.invalidColorReference "bg") := by
  constructor
  · obtain ⟨p, o, hp, hm, hbg, ho, hfg⟩ := fromHelixTable_ok_inv h1
    unfold resolveBackground at hbg
    rw [h2] at hbg
    injection hbg with hbg
    exact hbg.symm
  · have hrb : resolveBackground p2 root2 = .error (.invalidColorReference "bg") := by
      simp only [resolveBackground, h5, referenced_color_field_absent h6]
    simp only [fromHelixTable, h3, h4, hrb]

/-- Claim C4 witness: a minimal theme without `ui.background` resolves
with black, and a theme whose `ui.background` table lacks `bg` fails. -/
theorem c4_background_fallback_or_bg_error_witness :
    fromHelixTable docMinimal =
      .ok { style_map := [], foreground := Style.fromColor "#fff",
            background := Style.fromColor "#000" } ∧
    Table.get docMinimal "ui.background" = none ∧
    Table.get docBgMissing "ui.background" = some (.table []) ∧
    ({ style_map := ([] : List (Nat × Style)),
       foreground := Style.fromColor "#fff",
       background := Style.fromColor "#000" : Theme }.background =
        Style.fromColor "#000" ∧
     fromHelixTable docBgMissing = .error (.invalidColorReference "bg")) :=
  ⟨rfl, rfl, rfl,
   c4_background_fallback_or_bg_error docMinimal _ docBgMissing (.table []) [] []
     rfl rfl rfl rfl rfl rfl⟩

/-- Claim C4 counterexample: a theme whose `ui.background` is present but
lacks the `bg` field makes `from_helix` fail, contradicting the claimed
fallback-to-black success. -/
theorem c4_counterexample :
    fromHelixTable docBgMissing = .error (.invalidColorReference "bg") ∧
    (fromHelixTable docBgMissing).isOk = false :=
  ⟨rfl, rfl⟩

/-- Claim C5, amended: when `ui.text` is absent, or is a bare reference
that does not resolve in the palette, the theme resolves with the
built-in white fallback `#fff` (both modifier flags false); but when
`ui.text` is a table whose `fg` reference does not resolve, `from_helix`
fails with `InvalidColorReference("fg")` instead of falling back. -/
theorem c5_foreground_fallback_or_fg_error
    (root1 : Table) (t1 : Theme)
    (root2 : Table) (t2 : Theme) (p2 : Value) (r2 : String)
    (root3 : Table) (p3 : Value) (m3 : List (Nat × Style)) (b3 : Style)
    (ut : Table) (r3 : String)
    (h1 : fromHelixTable root1 = .ok t1)
    (h2 : Table.get root1 "ui.text" = none)
    (h3 : fromHelixTable root2 = .ok t2)
    (h4 : Table.get root2 "palette" = some p2)
    (h5 : Table.get root2 "ui.text" = some (.str r2))
    (h6 : isStrOpt (Value.get p2 r2) = false)
    (h7 : Table.get root3 "palette" = some p3)
    (h8 : buildStyleMap root3 p3 HIGHLIGHT_NAMES 0 = .ok m3)
    (h9 : resolveBackground p3 root3 = .ok b3)
    (h10 : Table.get root3 "ui.text" = some (.table ut))
    (h11 : Table.get ut "fg" = some (.str r3))
    (h12 : isStrOpt (Value.get p3 r3) = false) :
    t1.foreground = Style.fromColor "#fff" ∧
    t2.foreground = Style.fromColor "#fff" ∧
    fromHelixTable root3 = .error (.invalidColorReference "fg") := by
  refine ⟨?_, ?_, ?_⟩
  · obtain ⟨p, o, hp, hm, hbg, ho, hfg⟩ := fromHelixTable_ok_inv h1
    rw [fg_color_absent h2] at ho
    injection ho with ho
    rw [hfg, ← ho]
    rfl
  · obtain ⟨p, o, hp, hm, hbg, ho, hfg⟩ := fromHelixTable_ok_inv h3
    rw [hp] at h4
    injection h4 with h4
    subst h4
    rw [fg_color_bare_unresolved h5 h6] at ho
    injection ho with ho
    rw [hfg, ← ho]
    rfl
  · simp only [fromHelixTable, h7, h8, h9,
      fg_color_table_unresolved h10 h11 h12]

/-- Claim C5 witness: `ui.text` absent, `ui.text` a dangling bare
reference, and `ui.text` a table with a dangling `fg` reference. -/
theorem c5_foreground_fallback_or_fg_error_witness :
    fromHelixTable docMinimal =
      .ok { style_map := [], foreground := Style.fromColor "#fff",
            background := Style.fromColor "#000" } ∧
    fromHelixTable docUiTextBareMissing =
      .ok { style_map := [], foreground := Style.fromColor "#fff",
            background := Style.fromColor "#000" } ∧
    Table.get docUiTextTableMissing "ui.text" = some (.table [("fg", .str "red")]) ∧
    ((Style.fromColor "#fff" = Style.fromColor "#fff") ∧
     (Style.fromColor "#fff" = Style.fromColor "#fff") ∧
     fromHelixTable docUiTextTableMissing = .error (.invalidColorReference "fg")) :=
  ⟨rfl, rfl, rfl, by
    have h := c5_foreground_fallback_or_fg_error docMinimal
      { style_map := [], foreground := Style.fromColor "#fff",
        background := Style.fromColor "#000" }
      docUiTextBareMissing
      { style_map := [], foreground := Style.fromColor "#fff",
        background := Style.fromColor "#000" }
      (.table [("x", .str "#123")]) "red"
      docUiTextTableMissing (.table []) [] (Style.fromColor "#000")
      [("fg", .str "red")] "red"
      rfl rfl rfl rfl rfl rfl rfl rfl rfl rfl rfl rfl
    exact h⟩

/-- Claim C5 counterexample: a theme whose `ui.text` is a table form with
a dangling `fg` reference makes `from_helix` fail instead of succeeding
with the white fallback. -/
theorem c5_counterexample :
    fromHelixTable docUiTextTableMissing = .error (.invalidColorReference "fg") ∧
    (fromHelixTable docUiTextTableMissing).isOk = false :=
  ⟨rfl, rfl⟩

/-- Claim C6: a table-form scope entry whose `fg` resolves and whose
modifier list contains "bold" and "italic" resolves to a style with both
flags set; the corresponding CSS class rule then contains both the
`font-weight: bold;` and `font-style: italic;` declarations (shown by the
rule's explicit decomposition); and any modifier string other than "bold"
and "italic" leaves the style unchanged, without error. -/
theorem c6_bold_italic_modifiers
    (root : Table) (palette : Value) (name : String) (u : Table)
    (r c : String) (ms : List Value) (i : Nat) (s : Style) (n : String)
    (h1 : Table.get root name = some (.table u))
    (h2 : Table.get u "fg" = some (.str r))
    (h3 : Value.get palette r = some (.str c))
    (h4 : Table.get u "modifiers" = some (.array ms))
    (h5 : Value.str "bold" ∈ ms)
    (h6 : Value.str "italic" ∈ ms)
    (h7 : n ≠ "italic") (h8 : n ≠ "bold") :
    fg_color root palette name =
      .ok (some { color := c, is_bold := true, is_italic := true })
    ∧ cssRule i { color := c, is_bold := true, is_italic := true } =
        cssRuleHead i c ++ "font-weight: bold;" ++ "font-style: italic;" ++ "\x7d\n"
    ∧ modStep s (.str n) = s := by
  refine ⟨?_, rfl, ?_⟩
  · have hrc : referenced_color palette u "fg" = .ok (Style.fromColor c) := by
      simp only [referenced_color, h2, h3]
    have happ : applyModifiers (Style.fromColor c) (some (.array ms)) =
        { color := c, is_bold := true, is_italic := true } := by
      unfold applyModifiers
      refine Style.ext ?_ ?_ ?_
      · rw [foldl_modStep_color]
        rfl
      · rw [foldl_modStep_bold_of_mem _ h5]
      · rw [foldl_modStep_italic_of_mem _ h6]
    simp only [fg_color, h1, hrc, h4, happ]
  · simp [modStep, h7, h8]

/-- Claim C6 witness: the entry `keyword = \x7b fg = "red", modifiers =
["bold", "italic", "strikethrough"] \x7d` over the palette `red =
"#ff0000"`; "strikethrough" is ignored. -/
theorem c6_bold_italic_modifiers_witness :
    Table.get docKeywordBoldItalic "keyword" = some (.table tblBoldItalic) ∧
    Value.str "bold" ∈ modsBoldItalicStrike ∧
    Value.str "italic" ∈ modsBoldItalicStrike ∧
    ("strikethrough" : String) ≠ "italic" ∧
    (fg_color docKeywordBoldItalic palRed "keyword" =
      .ok (some { color := "#ff0000", is_bold := true, is_italic := true })
     ∧ cssRule 11 { color := "#ff0000", is_bold := true, is_italic := true } =
        cssRuleHead 11 "#ff0000" ++ "font-weight: bold;" ++
          "font-style: italic;" ++ "\x7d\n"
     ∧ modStep (Style.fromColor "#abc") (.str "strikethrough") =
        Style.fromColor "#abc") :=
  ⟨rfl, List.Mem.head _, List.Mem.tail _ (List.Mem.head _), by decide,
   c6_bold_italic_modifiers docKeywordBoldItalic palRed "keyword" tblBoldItalic
     "red" "#ff0000" modsBoldItalicStrike 11 (Style.fromColor "#abc")
     "strikethrough" rfl rfl rfl rfl (List.Mem.head _)
     (List.Mem.tail _ (List.Mem.head _)) (by decide) (by decide)⟩

/-- Claim C7: the error kinds are distinguishable typed variants: a TOML
parse failure surfaces as `Error::Toml` (malformed document), a parsed
document whose top level is not a table surfaces as
`Error::InvalidTheme`, and the two variants are distinct; on failure the
result is an `Except.error`, so no partial theme is returned. -/
theorem c7_error_kinds (e : TomlError) (v : Value) (h : v.isTable = false) :
    from_helix (.error e) = .error (.toml e) ∧
    from_helix (.ok v) = .error .invalidTheme ∧
    Error.toml e ≠ Error.invalidTheme ∧
    (from_helix (.error e)).isOk = false := by
  refine ⟨rfl, ?_, fun hc => Error.noConfusion hc, rfl⟩
  cases v with
  | str s => rfl
  | array l => rfl
  | table u => exact absurd h (by simp [Value.isTable])
  | other => rfl

/-- Claim C7 witness: a parse error "boom" and the non-table top-level
value `"x"`. -/
theorem c7_error_kinds_witness :
    (Value.str "x").isTable = false ∧
    (from_helix (.error "boom") = .error (.toml "boom") ∧
     from_helix (.ok (.str "x")) = .error .invalidTheme ∧
     Error.toml "boom" ≠ Error.invalidTheme ∧
     (from_helix (.error "boom")).isOk = false) :=
  ⟨rfl, c7_error_kinds "boom" (.str "x") rfl⟩

/-- Claim C8: `css` takes the renderer by shared reference, so the
renderer state after a call is unchanged and a second call on the same
renderer returns a byte-identical string. -/
theorem c8_css_idempotent (r : Renderer) :
    (Renderer.cssCall r).2 = r ∧
    (Renderer.cssCall ((Renderer.cssCall r).2)).1 = (Renderer.cssCall r).1 :=
  ⟨rfl, rfl⟩

/-- Claim C9: every successfully resolved theme has a background style
with both modifier flags false — the background is resolved through
`referenced_color` or the black fallback, neither of which applies
modifiers, even if the `ui.background` table carries a modifiers list. -/
theorem c9_background_without_modifiers
    (parsed : Except TomlError Value) (t : Theme)
    (h : from_helix parsed = .ok t) :
    t.background.is_bold = false ∧ t.background.is_italic = false := by
  cases parsed with
  | error e => exact Except.noConfusion h
  | ok v =>
    cases v with
    | str s => exact Except.noConfusion h
    | array l => exact Except.noConfusion h
    | other => exact Except.noConfusion h
    | table root =>
      have h2 : fromHelixTable root = .ok t := h
      obtain ⟨p, o, hp, hm, hbg, ho, hfg⟩ := fromHelixTable_ok_inv h2
      exact resolveBackground_flags hbg

/-- Claim C9 witness: a theme whose `ui.background` table resolves `bg`
and also carries a modifiers list; the background still has both flags
false. -/
theorem c9_background_without_modifiers_witness :
    from_helix (.ok (.table docBgWithModifiers)) =
      .ok { style_map := [], foreground := Style.fromColor "#fff",
            background := Style.fromColor "#f00" } ∧
    ((Style.fromColor "#f00").is_bold = false ∧
     (Style.fromColor "#f00").is_italic = false) :=
  ⟨rfl,
   c9_background_without_modifiers (.ok (.table docBgWithModifiers))
     { style_map := [], foreground := Style.fromColor "#fff",
       background := Style.fromColor "#f00" } rfl⟩

/-- Claim C10: `Lang::from_extension` maps both "java" and "js" to
`Lang::Js`, so the distinct extension "java" duplicates the JavaScript
mapping even though a separate `Lang::Java` variant exists. -/
theorem c10_java_js_same_lang :
    Lang.from_extension "java" = some Lang.Js ∧
    Lang.from_extension "js" = some Lang.Js ∧
    ("java" : String) ≠ "js" ∧
    (Lang.Js ≠ Lang.Java) :=
  ⟨rfl, rfl, by decide, by decide⟩

end TreePainter
